import Mathlib

/-!
# BeReal — verification of the selection / operation / deck engine

A shallow embedding of the game logic of `src/App.tsx` (the BeReal puzzle
over Gaussian integers).  Cards carry an opaque identifier that the program
only ever compares for equality; we model identifiers as natural numbers.
Every use of `Math.random()` in the source is modelled by an explicit choice
parameter: a `Nat` index for a `sample` pick (the source computes
`Math.floor(Math.random()*arr.length)`, a uniform index into the array, which
we model as `i % arr.length` for an arbitrary `i`), a fresh identifier for
each card produced by `uid`, and a choice function for the Fisher–Yates
shuffle.  All functions are state-passing translations of the React
component: each entry point reads the pre-transition snapshot of the state
(the render closure) and produces the post-transition state.
-/

namespace BeReal

/-- The three binary operator kinds: `"+"`, `"-"`, `"×"` in the source. -/
inductive BinOp where
  | plus
  | minus
  | times
deriving DecidableEq, Repr

/-- The three unary operator kinds: `"conj"`, `"×i"`, `"×(-i)"` in the source. -/
inductive UnOp where
  | conjugate
  | timesI
  | timesNegI
deriving DecidableEq, Repr

/-- `ComplexCard {id, a, b, kind:"complex"}`: the card value `a + b·i`. -/
structure ComplexCard where
  id : Nat
  a : Int
  b : Int
deriving DecidableEq, Repr

/-- `BinaryOpCard {id, op, kind:"binary"}`. -/
structure BinaryOpCard where
  id : Nat
  op : BinOp
deriving DecidableEq, Repr

/-- `UnaryOpCard {id, op, kind:"unary"}`. -/
structure UnaryOpCard where
  id : Nat
  op : UnOp
deriving DecidableEq, Repr

/-- `Card = ComplexCard | BinaryOpCard | UnaryOpCard` (tagged by `kind`). -/
inductive Card where
  | complex : ComplexCard → Card
  | binary : BinaryOpCard → Card
  | unary : UnaryOpCard → Card
deriving DecidableEq, Repr

/-- The `kind` discriminant of a card. -/
inductive Kind where
  | complexK
  | binaryK
  | unaryK
deriving DecidableEq, Repr

def Card.id : Card → Nat
  | .complex c => c.id
  | .binary c => c.id
  | .unary c => c.id

def Card.kind : Card → Kind
  | .complex _ => .complexK
  | .binary _ => .binaryK
  | .unary _ => .unaryK

/-! ## OperationEngine: Gaussian-integer arithmetic (`App.tsx` lines 39–64)

Each arithmetic function in the source builds a fresh card with `uid("c")`;
the fresh identifier is the explicit first argument `nid` here. -/

def add (nid : Nat) (z1 z2 : ComplexCard) : ComplexCard :=
  { id := nid, a := z1.a + z2.a, b := z1.b + z2.b }

def sub (nid : Nat) (z1 z2 : ComplexCard) : ComplexCard :=
  { id := nid, a := z1.a - z2.a, b := z1.b - z2.b }

def mul (nid : Nat) (z1 z2 : ComplexCard) : ComplexCard :=
  { id := nid, a := z1.a * z2.a - z1.b * z2.b, b := z1.a * z2.b + z1.b * z2.a }

def conj (nid : Nat) (z : ComplexCard) : ComplexCard :=
  { id := nid, a := z.a, b := -z.b }

def imul (nid : Nat) (z : ComplexCard) (sign : Int) : ComplexCard :=
  { id := nid, a := -sign * z.b, b := sign * z.a }

def isReal (c : ComplexCard) : Bool :=
  c.b == 0

/-! ## CardFactory (`App.tsx` lines 66–130)

`sample(arr)` picks `arr[Math.floor(Math.random()*arr.length)]`, a uniform
index in `[0, arr.length)`; the arbitrary `Nat` choice `i` reaches every such
index through `i % arr.length`.  The default value of `getD` is never used:
every range sampled in the source is non-empty. -/

def sample {α : Type} (arr : List α) (d : α) (i : Nat) : α :=
  arr.getD (i % arr.length) d

def COMPLEX_RANGE : List Int := [-5, -4, -3, -2, -1, 0, 1, 2, 3, 4, 5]

def COMPLEX_RANGE_NON0 : List Int := [-5, -4, -3, -2, -1, 1, 2, 3, 4, 5]

def genComplex (ia ib : Nat) (nid : Nat) : ComplexCard :=
  { id := nid, a := sample COMPLEX_RANGE 0 ia, b := sample COMPLEX_RANGE 0 ib }

def genNonRealComplex (ia ib : Nat) (nid : Nat) : ComplexCard :=
  { id := nid, a := sample COMPLEX_RANGE 0 ia, b := sample COMPLEX_RANGE_NON0 0 ib }

def genBinary (i : Nat) (nid : Nat) : BinaryOpCard :=
  { id := nid, op := sample [BinOp.plus, BinOp.minus, BinOp.times] BinOp.plus i }

def genUnary (i : Nat) (nid : Nat) : UnaryOpCard :=
  { id := nid, op := sample [UnOp.conjugate, UnOp.timesI, UnOp.timesNegI] UnOp.conjugate i }

/-- The random choices consumed by one `genHandBatch()` call: operator picks,
coefficient picks, the eight fresh `uid` identifiers (in generation order),
and the shuffle's index choices. -/
structure BatchChoices where
  bo1 : Nat
  bo2 : Nat
  bid1 : Nat
  bid2 : Nat
  ca1 : Nat
  cb1 : Nat
  ca2 : Nat
  cb2 : Nat
  ca3 : Nat
  cb3 : Nat
  ca4 : Nat
  cb4 : Nat
  cid1 : Nat
  cid2 : Nat
  cid3 : Nat
  cid4 : Nat
  uo1 : Nat
  uo2 : Nat
  uid1 : Nat
  uid2 : Nat
  sh : Nat → Nat

/-- One Fisher–Yates step `[cards[i], cards[j]] = [cards[j], cards[i]]`:
both reads happen before both writes. -/
def swapAt {α : Type} (l : List α) (i j : Nat) : List α :=
  match l[i]?, l[j]? with
  | some x, some y => (l.set i y).set j x
  | _, _ => l

/-- The shuffle loop `for (let i = cards.length - 1; i > 0; i--)`:
the counter runs from `i` down to `1`, swapping index `i` with
`Math.floor(Math.random()*(i+1))`, modelled as `sh i % (i+1)`. -/
def shuffleLoop {α : Type} (sh : Nat → Nat) : Nat → List α → List α
  | 0, l => l
  | i + 1, l => shuffleLoop sh i (swapAt l (i + 1) (sh (i + 1) % (i + 2)))

/-- `genHandBatch()`: 2 binary, then 4 complex, then 2 unary, then shuffle. -/
def genHandBatch (ch : BatchChoices) : List Card :=
  let cards : List Card :=
    [Card.binary (genBinary ch.bo1 ch.bid1), Card.binary (genBinary ch.bo2 ch.bid2),
     Card.complex (genComplex ch.ca1 ch.cb1 ch.cid1),
     Card.complex (genComplex ch.ca2 ch.cb2 ch.cid2),
     Card.complex (genComplex ch.ca3 ch.cb3 ch.cid3),
     Card.complex (genComplex ch.ca4 ch.cb4 ch.cid4),
     Card.unary (genUnary ch.uo1 ch.uid1), Card.unary (genUnary ch.uo2 ch.uid2)]
  shuffleLoop ch.sh (cards.length - 1) cards

/-- `genInitialBoard(n)`: `n` non-real complex cards in generation order. -/
def genInitialBoard (n : Nat) (fa fb fid : Nat → Nat) : List ComplexCard :=
  (List.range n).map fun k => genNonRealComplex (fa k) (fb k) (fid k)

/-! ## GameState (the `useState` fields of the component) -/

structure GameState where
  board : List ComplexCard
  hand : List Card
  stock : Option Card
  selectedOp : Option Card
  selectedTargets : List Nat
  moves : Nat
  totalRemoved : Nat
  gameOver : Bool
deriving DecidableEq, Repr

def resetSelections (s : GameState) : GameState :=
  { s with selectedOp := none, selectedTargets := [] }

/-- The spec quantity `hand.length + (stock present ? 1 : 0)`. -/
def handStockSum (s : GameState) : Nat :=
  s.hand.length + (if s.stock.isSome then 1 else 0)

/-! ## DeckManager (`App.tsx` lines 351–400) -/

/-- `drawNextBatch()`: replace the hand with a fresh batch, clear selections. -/
def drawNextBatch (ch : BatchChoices) (s : GameState) : GameState :=
  resetSelections { s with hand := genHandBatch ch }

/-- `toggleStockFromHand(cardId)`: the card is looked up in the hand only
(`hand.find`); the function returns unchanged when the lookup fails. -/
def toggleStockFromHand (s : GameState) (cardId : Nat) : GameState :=
  match s.hand.find? (fun c => c.id == cardId) with
  | none => s
  | some cardInHand =>
    match s.stock with
    | some st =>
      if st.id == cardInHand.id then
        { s with stock := none }
      else
        resetSelections { s with
          hand := (s.hand.filter fun c => c.id != cardId) ++ [st],
          stock := some cardInHand }
    | none =>
      resetSelections { s with
        hand := s.hand.filter fun c => c.id != cardId,
        stock := some cardInHand }

/-- `placeStockBack()`: append the stocked card to the hand, clear the stock. -/
def placeStockBack (s : GameState) : GameState :=
  match s.stock with
  | none => s
  | some st => { s with hand := s.hand ++ [st], stock := none }

/-! ## Length helpers -/

theorem swapAt_length {α : Type} (l : List α) (i j : Nat) :
    (swapAt l i j).length = l.length := by
  cases h1 : l[i]? with
  | none => simp [swapAt, h1]
  | some x =>
    cases h2 : l[j]? with
    | none => simp [swapAt, h1, h2]
    | some y => simp [swapAt, h1, h2]

theorem shuffleLoop_length {α : Type} (sh : Nat → Nat) (n : Nat) (l : List α) :
    (shuffleLoop sh n l).length = l.length := by
  induction n generalizing l with
  | zero => rfl
  | succ i ih => rw [shuffleLoop, ih, swapAt_length]

theorem genHandBatch_length (ch : BatchChoices) : (genHandBatch ch).length = 8 := by
  rw [genHandBatch, shuffleLoop_length]
  rfl

/-- Filtering out one identifier from a hand whose identifiers are pairwise
distinct removes exactly the one card carrying it. -/
theorem length_filter_out_id {hand : List Card} {c : Card} {cardId : Nat}
    (hnd : (hand.map Card.id).Nodup) (hc : c ∈ hand) (hid : c.id = cardId) :
    (hand.filter fun x => x.id != cardId).length = hand.length - 1 := by
  have hmem : cardId ∈ hand.map Card.id := List.mem_map.2 ⟨c, hc, hid⟩
  have hcount : (hand.map Card.id).count cardId = 1 :=
    List.count_eq_one_of_mem hnd hmem
  have hcountP : hand.countP (fun x => x.id == cardId) = 1 := by
    rw [List.count_eq_countP, List.countP_map] at hcount
    exact hcount
  have hsplit := List.length_eq_countP_add_countP (fun x => x.id != cardId) hand
  have hcongr : hand.countP (fun a => decide ¬((fun x => x.id != cardId) a = true))
      = hand.countP (fun x => x.id == cardId) := by
    apply List.countP_congr
    intro a _
    simp [bne]
  rw [hcongr, hcountP] at hsplit
  rw [← List.countP_eq_length_filter]
  omega

/-! ## Claim C1

The source's `drawNextBatch` replaces the hand with a fresh 8-card batch and
does not touch the stock, so with an occupied stock the sum
`hand.length + 1` becomes `9`, not `8`: the claim fails for `drawNextBatch`.
The two stock operations do preserve the sum. -/

/-- A fixed bundle of batch choices, used to instantiate random draws. -/
def ch0 : BatchChoices :=
  ⟨0, 0, 101, 102, 0, 0, 0, 0, 0, 0, 0, 0, 103, 104, 105, 106, 0, 0, 107, 108, fun _ => 0⟩

/-- A state after the initial draw with one card stocked: seven hand cards
plus the stocked card, so the spec sum is `8`. -/
def st0 : GameState :=
  { board := []
    hand := [Card.complex ⟨1, 1, 1⟩, Card.complex ⟨2, 1, 1⟩, Card.complex ⟨3, 1, 1⟩,
             Card.complex ⟨4, 1, 1⟩, Card.binary ⟨5, BinOp.plus⟩,
             Card.binary ⟨6, BinOp.minus⟩, Card.unary ⟨7, UnOp.conjugate⟩]
    stock := some (Card.complex ⟨8, 1, 1⟩)
    selectedOp := none
    selectedTargets := []
    moves := 0
    totalRemoved := 0
    gameOver := false }

/-- C1 (counterexample): in a state satisfying
`hand.length + (stock present ? 1 : 0) = 8` with a card stocked,
`drawNextBatch` deals a full fresh hand of 8 and leaves the stock occupied,
so the sum becomes `9` — the claimed invariant does not survive
`drawNextBatch` when a card is stocked. -/
theorem drawNextBatch_sum_counterexample :
    handStockSum st0 = 8 ∧ handStockSum (drawNextBatch ch0 st0) = 9 := by
  constructor
  · rfl
  · simp [drawNextBatch, handStockSum, resetSelections, genHandBatch_length, st0]

/-- C1 (amended): `toggleStockFromHand` and `placeStockBack` preserve the sum
`hand.length + (stock present ? 1 : 0)` whenever the hand/stock identifiers
are pairwise distinct, while `drawNextBatch` always leaves the stock as it
was and resets the hand to exactly 8 cards — hence after `drawNextBatch` the
sum is `8` exactly when the stock is empty. -/
theorem handStock_sum_after_deck_ops (s : GameState) (cardId : Nat) (ch : BatchChoices)
    (hnd : ((s.hand ++ s.stock.toList).map Card.id).Nodup) :
    handStockSum (toggleStockFromHand s cardId) = handStockSum s ∧
    handStockSum (placeStockBack s) = handStockSum s ∧
    (drawNextBatch ch s).hand.length = 8 ∧ (drawNextBatch ch s).stock = s.stock := by
  rw [List.map_append, List.nodup_append] at hnd
  obtain ⟨hnodupHand, -, hdisj⟩ := hnd
  refine ⟨?_, ?_, ?_, by rw [drawNextBatch, resetSelections]⟩
  · cases hfind : s.hand.find? (fun c => c.id == cardId) with
    | none => rw [toggleStockFromHand, hfind]
    | some c =>
      have hc : c ∈ s.hand := List.mem_of_find?_eq_some hfind
      have hcid : c.id = cardId := by simpa using List.find?_some hfind
      have hpos : 0 < s.hand.length := List.length_pos_of_mem hc
      have hflen : (s.hand.filter fun x => x.id != cardId).length = s.hand.length - 1 :=
        length_filter_out_id hnodupHand hc hcid
      cases hstock : s.stock with
      | none =>
        simp only [toggleStockFromHand, hfind, hstock, resetSelections]
        simp [handStockSum, hstock, hflen]
        omega
      | some st =>
        have hne : ¬(st.id == c.id) = true := by
          intro hsame
          have heq : st.id = c.id := by simpa using hsame
          have hmemH : cardId ∈ s.hand.map Card.id := List.mem_map.2 ⟨c, hc, hcid⟩
          have hmemS : cardId ∈ s.stock.toList.map Card.id := by
            rw [hstock]
            simp [← hcid, ← heq]
          exact hdisj hmemH hmemS
        simp only [toggleStockFromHand, hfind, hstock, if_neg hne, resetSelections]
        simp [handStockSum, hstock, hflen]
        omega
  · cases hstock : s.stock with
    | none => rw [placeStockBack, hstock]
    | some st =>
      simp only [placeStockBack, hstock]
      simp [handStockSum, hstock]
  · rw [drawNextBatch]
    simp [resetSelections, genHandBatch_length]

/-- Witness for the amended C1 at a concrete state. -/
theorem handStock_sum_after_deck_ops_witness :
    ((st0.hand ++ st0.stock.toList).map Card.id).Nodup ∧
    (handStockSum (toggleStockFromHand st0 1) = handStockSum st0 ∧
     handStockSum (placeStockBack st0) = handStockSum st0 ∧
     (drawNextBatch ch0 st0).hand.length = 8 ∧ (drawNextBatch ch0 st0).stock = st0.stock) :=
  ⟨by decide, handStock_sum_after_deck_ops st0 1 ch0 (by decide)⟩

/-! ## Claim C2

`toggleStockFromHand` looks the identifier up with `hand.find` and returns
immediately when it is absent.  The stocked card is never in the hand (it was
removed when stocked), so calling `toggleStockFromHand` with the stocked
card's id is a no-op: the "unstock" branch guarded by
`stock.id === cardInHand.id` is unreachable for distinct identifiers, even
though the source's own comment says "if same card already in stock ->
unstock (move back to hand)". -/

/-- A reachable-shape state: stocked card id `8` is not in the hand. -/
def st2 : GameState :=
  { board := []
    hand := [Card.complex ⟨1, 2, 0⟩, Card.complex ⟨2, 0, 3⟩]
    stock := some (Card.complex ⟨8, 2, 3⟩)
    selectedOp := none
    selectedTargets := []
    moves := 0
    totalRemoved := 0
    gameOver := false }

/-- C2 (code behaviour at the failing input): with card `8` stocked and
absent from the hand, `toggleStockFromHand 8` changes nothing — the card is
not moved back to the hand and the stock is not cleared, contrary to the
documented unstock behaviour. -/
theorem toggleStock_stocked_id_noop :
    st2.stock = some (Card.complex ⟨8, 2, 3⟩) ∧
    (st2.hand.find? fun c => c.id == 8) = none ∧
    toggleStockFromHand st2 8 = st2 := by
  refine ⟨rfl, by decide, by decide⟩

/-! ## Operation application (`App.tsx` lines 229–349) -/

/-- Dispatch on a unary operator card's `op` field (`performUnary` lines 232–235). -/
def unApply (nid : Nat) (op : UnOp) (target : ComplexCard) : ComplexCard :=
  match op with
  | .conjugate => conj nid target
  | .timesI => imul nid target 1
  | .timesNegI => imul nid target (-1)

/-- Dispatch on a binary operator card's `op` field (`performBinary` lines 303–306). -/
def binApply (nid : Nat) (op : BinOp) (l r : ComplexCard) : ComplexCard :=
  match op with
  | .plus => add nid l r
  | .minus => sub nid l r
  | .times => mul nid l r

/-- `board.findIndex((c) => c.id === id) !== -1`. -/
def onBoard (s : GameState) (cid : Nat) : Bool :=
  (s.board.findIdx? fun c => c.id == cid).isSome

/-- The operand the code prefers as `left`: the swap at lines 289–295 makes
`left` the board operand whenever exactly the second one is on the board. -/
def leftOperand (s : GameState) (z1 z2 : ComplexCard) : ComplexCard :=
  if !onBoard s z1.id && onBoard s z2.id then z2 else z1

def rightOperand (s : GameState) (z1 z2 : ComplexCard) : ComplexCard :=
  if !onBoard s z1.id && onBoard s z2.id then z1 else z2

/-- `if (stock && watchedId === stock.id) setStock(null)` — the stock-clearing
test shared by `performUnary` (line 257, with the op card's id) and
`performBinary` (line 344, with the first operand's id). -/
def clearStockIf (watchedId : Nat) (s : GameState) : GameState :=
  match s.stock with
  | some st => if watchedId == st.id then { s with stock := none } else s
  | none => s

/-- `performUnary(opCard, target)`: `nid` is the fresh id of the computed
card, `ch` the random choices of the subsequent hand redraw. -/
def performUnary (nid : Nat) (ch : BatchChoices) (opCard : UnaryOpCard)
    (target : ComplexCard) (s : GameState) : GameState :=
  match s.board.findIdx? (fun c => c.id == target.id) with
  | none => s
  | some idx =>
    let result := unApply nid opCard.op target
    let s1 := { s with moves := s.moves + 1 }
    let s2 :=
      if isReal result then
        { s1 with board := s1.board.eraseIdx idx, totalRemoved := s1.totalRemoved + 1 }
      else
        { s1 with board := s1.board.set idx result }
    clearStockIf opCard.id (drawNextBatch ch (resetSelections s2))

/-- `performBinary(opCard, z1, z2, id1, id2)`.  Note the stock-clearing test
at line 344 compares `id1` — the first *operand*'s id — with the stock. -/
def performBinary (nid : Nat) (ch : BatchChoices) (opCard : BinaryOpCard)
    (z1 z2 : ComplexCard) (id1 id2 : Nat) (s : GameState) : GameState :=
  let onBoard1 := (s.board.findIdx? fun c => c.id == id1).isSome
  let onBoard2 := (s.board.findIdx? fun c => c.id == id2).isSome
  let left := if !onBoard1 && onBoard2 then z2 else z1
  let right := if !onBoard1 && onBoard2 then z1 else z2
  let leftIsBoard := if !onBoard1 && onBoard2 then onBoard2 else onBoard1
  let rightIsBoard := if !onBoard1 && onBoard2 then onBoard1 else onBoard2
  if !leftIsBoard then resetSelections s
  else
    let result := binApply nid opCard.op left right
    let s1 := { s with moves := s.moves + 1 }
    let s2 :=
      if isReal result then
        if leftIsBoard && rightIsBoard then
          { s1 with board := s1.board.filter fun c => c.id != left.id && c.id != right.id,
                    totalRemoved := s1.totalRemoved + 2 }
        else
          { s1 with board := s1.board.filter fun c => c.id != left.id,
                    totalRemoved := s1.totalRemoved + 1 }
      else
        let newBoard :=
          match s1.board.findIdx? (fun c => c.id == left.id) with
          | none => s1.board
          | some li =>
            let copy := s1.board.set li result
            if rightIsBoard && right.id != left.id then
              match copy.findIdx? (fun c => c.id == right.id) with
              | none => copy
              | some ri => copy.eraseIdx ri
            else copy
        let s1b := { s1 with board := newBoard }
        if rightIsBoard && right.id != left.id then
          { s1b with totalRemoved := s1b.totalRemoved + 1 }
        else s1b
    drawNextBatch ch (resetSelections (clearStockIf id1 s2))

/-! ## Projection helpers for the transition tails -/

@[simp]
theorem resetSelections_board (s : GameState) : (resetSelections s).board = s.board := rfl

@[simp]
theorem resetSelections_stock (s : GameState) : (resetSelections s).stock = s.stock := rfl

@[simp]
theorem resetSelections_moves (s : GameState) : (resetSelections s).moves = s.moves := rfl

@[simp]
theorem resetSelections_totalRemoved (s : GameState) :
    (resetSelections s).totalRemoved = s.totalRemoved := rfl

@[simp]
theorem drawNextBatch_board (ch : BatchChoices) (s : GameState) :
    (drawNextBatch ch s).board = s.board := by
  rw [drawNextBatch, resetSelections]

@[simp]
theorem drawNextBatch_stock (ch : BatchChoices) (s : GameState) :
    (drawNextBatch ch s).stock = s.stock := by
  rw [drawNextBatch, resetSelections]

@[simp]
theorem drawNextBatch_moves (ch : BatchChoices) (s : GameState) :
    (drawNextBatch ch s).moves = s.moves := by
  rw [drawNextBatch, resetSelections]

@[simp]
theorem drawNextBatch_totalRemoved (ch : BatchChoices) (s : GameState) :
    (drawNextBatch ch s).totalRemoved = s.totalRemoved := by
  rw [drawNextBatch, resetSelections]

@[simp]
theorem clearStockIf_board (watchedId : Nat) (s : GameState) :
    (clearStockIf watchedId s).board = s.board := by
  cases hst : s.stock with
  | none => simp [clearStockIf, hst]
  | some st =>
    by_cases h : (watchedId == st.id) = true <;> simp [clearStockIf, hst, h]

@[simp]
theorem clearStockIf_hand (watchedId : Nat) (s : GameState) :
    (clearStockIf watchedId s).hand = s.hand := by
  cases hst : s.stock with
  | none => simp [clearStockIf, hst]
  | some st =>
    by_cases h : (watchedId == st.id) = true <;> simp [clearStockIf, hst, h]

@[simp]
theorem clearStockIf_moves (watchedId : Nat) (s : GameState) :
    (clearStockIf watchedId s).moves = s.moves := by
  cases hst : s.stock with
  | none => simp [clearStockIf, hst]
  | some st =>
    by_cases h : (watchedId == st.id) = true <;> simp [clearStockIf, hst, h]

@[simp]
theorem clearStockIf_totalRemoved (watchedId : Nat) (s : GameState) :
    (clearStockIf watchedId s).totalRemoved = s.totalRemoved := by
  cases hst : s.stock with
  | none => simp [clearStockIf, hst]
  | some st =>
    by_cases h : (watchedId == st.id) = true <;> simp [clearStockIf, hst, h]

theorem clearStockIf_stock (watchedId : Nat) (s : GameState) :
    (clearStockIf watchedId s).stock
      = match s.stock with
        | some st => if watchedId == st.id then none else some st
        | none => none := by
  cases hst : s.stock with
  | none => simp [clearStockIf, hst]
  | some st =>
    by_cases h : (watchedId == st.id) = true <;> simp [clearStockIf, hst, h]

/-- `(match l.findIdx? p with | none => l | some i => l.eraseIdx i)` is
`eraseP`: the source's remove-at-found-index idiom deletes exactly the first
match. -/
theorem eraseIdx_findIdx?_eq_eraseP {α : Type} (l : List α) (p : α → Bool) :
    (match l.findIdx? p with | none => l | some i => l.eraseIdx i) = l.eraseP p := by
  induction l with
  | nil => rfl
  | cons x t ih =>
    rw [List.findIdx?_cons, List.eraseP_cons]
    by_cases hp : p x = true
    · simp [hp]
    · have hp' : p x = false := by simpa using hp
      simp only [hp', Bool.false_eq_true, if_false, cond_false, Nat.zero_add,
        List.findIdx?_succ]
      cases hf : t.findIdx? p with
      | none => simpa [hf] using ih
      | some i =>
        simp only [hf, Option.map_some', List.eraseIdx_cons_succ]
        rw [← ih, hf]

/-! ## Claim C6 -/

/-- C6: when neither chosen operand is on the board, `performBinary` only
clears the selection: board, hand, stock, `moves`, `totalRemoved` and
`gameOver` are unchanged, no redraw happens, and no move is counted. -/
theorem performBinary_no_board_operand (nid : Nat) (ch : BatchChoices)
    (opCard : BinaryOpCard) (z1 z2 : ComplexCard) (id1 id2 : Nat) (s : GameState)
    (h1 : (s.board.findIdx? fun c => c.id == id1) = none)
    (h2 : (s.board.findIdx? fun c => c.id == id2) = none) :
    performBinary nid ch opCard z1 z2 id1 id2 s = resetSelections s ∧
    (performBinary nid ch opCard z1 z2 id1 id2 s).board = s.board ∧
    (performBinary nid ch opCard z1 z2 id1 id2 s).hand = s.hand ∧
    (performBinary nid ch opCard z1 z2 id1 id2 s).stock = s.stock ∧
    (performBinary nid ch opCard z1 z2 id1 id2 s).moves = s.moves ∧
    (performBinary nid ch opCard z1 z2 id1 id2 s).totalRemoved = s.totalRemoved ∧
    (performBinary nid ch opCard z1 z2 id1 id2 s).gameOver = s.gameOver ∧
    (performBinary nid ch opCard z1 z2 id1 id2 s).selectedOp = none ∧
    (performBinary nid ch opCard z1 z2 id1 id2 s).selectedTargets = [] := by
  have hmain : performBinary nid ch opCard z1 z2 id1 id2 s = resetSelections s := by
    simp only [performBinary, h1, h2, Option.isSome_none, Bool.not_false, Bool.and_false,
      Bool.and_self, if_neg, ite_self, Bool.not_true, if_true]
  rw [hmain]
  exact ⟨rfl, rfl, rfl, rfl, rfl, rfl, rfl, rfl, rfl⟩

/-- Witness for C6 at a concrete state: operands with ids 30 and 31,
board holding only a card with id 10. -/
theorem performBinary_no_board_operand_witness :
    ((st2.board.findIdx? fun c => c.id == 30) = none ∧
     (st2.board.findIdx? fun c => c.id == 31) = none) ∧
    (performBinary 99 ch0 ⟨20, BinOp.plus⟩ ⟨30, 2, 2⟩ ⟨31, 1, 1⟩ 30 31 st2 = resetSelections st2 ∧
     (performBinary 99 ch0 ⟨20, BinOp.plus⟩ ⟨30, 2, 2⟩ ⟨31, 1, 1⟩ 30 31 st2).board = st2.board ∧
     (performBinary 99 ch0 ⟨20, BinOp.plus⟩ ⟨30, 2, 2⟩ ⟨31, 1, 1⟩ 30 31 st2).hand = st2.hand ∧
     (performBinary 99 ch0 ⟨20, BinOp.plus⟩ ⟨30, 2, 2⟩ ⟨31, 1, 1⟩ 30 31 st2).stock = st2.stock ∧
     (performBinary 99 ch0 ⟨20, BinOp.plus⟩ ⟨30, 2, 2⟩ ⟨31, 1, 1⟩ 30 31 st2).moves = st2.moves ∧
     (performBinary 99 ch0 ⟨20, BinOp.plus⟩ ⟨30, 2, 2⟩ ⟨31, 1, 1⟩ 30 31 st2).totalRemoved = st2.totalRemoved ∧
     (performBinary 99 ch0 ⟨20, BinOp.plus⟩ ⟨30, 2, 2⟩ ⟨31, 1, 1⟩ 30 31 st2).gameOver = st2.gameOver ∧
     (performBinary 99 ch0 ⟨20, BinOp.plus⟩ ⟨30, 2, 2⟩ ⟨31, 1, 1⟩ 30 31 st2).selectedOp = none ∧
     (performBinary 99 ch0 ⟨20, BinOp.plus⟩ ⟨30, 2, 2⟩ ⟨31, 1, 1⟩ 30 31 st2).selectedTargets = []) :=
  ⟨⟨by decide, by decide⟩,
   performBinary_no_board_operand 99 ch0 ⟨20, BinOp.plus⟩ ⟨30, 2, 2⟩ ⟨31, 1, 1⟩ 30 31 st2
     (by decide) (by decide)⟩

/-! ## Claim C3

The stock test after a binary application (line 344) is
`if (stock && id1 === stock.id)` — it compares the stock against the id of
the *first operand*, not against the operator card.  A stocked operator card
therefore survives the operation, and a stocked complex card used as the
first operand clears the stock. -/

/-- Board with one card (id 10); a binary operator card (id 20) is stocked. -/
def st3 : GameState :=
  { board := [⟨10, 1, 1⟩]
    hand := [Card.complex ⟨30, 2, 2⟩]
    stock := some (Card.binary ⟨20, BinOp.plus⟩)
    selectedOp := some (Card.binary ⟨20, BinOp.plus⟩)
    selectedTargets := [30]
    moves := 0
    totalRemoved := 0
    gameOver := false }

/-- C3 (counterexample): the stocked card is the operator card (id 20)
applied to first operand id 30 (hand) and second operand id 10 (board);
the operation is applied, yet the stock is *not* cleared. -/
theorem performBinary_stock_counterexample :
    st3.stock = some (Card.binary ⟨20, BinOp.plus⟩) ∧
    (performBinary 99 ch0 ⟨20, BinOp.plus⟩ ⟨30, 2, 2⟩ ⟨10, 1, 1⟩ 30 10 st3).moves = 1 ∧
    (performBinary 99 ch0 ⟨20, BinOp.plus⟩ ⟨30, 2, 2⟩ ⟨10, 1, 1⟩ 30 10 st3).stock
      = some (Card.binary ⟨20, BinOp.plus⟩) := by
  refine ⟨rfl, ?_, ?_⟩ <;> decide

/-- C3 (amended): after an applied binary operation the stock is cleared if
and only if `id1` — the id of the card passed as first operand — was the
stocked card's id; the operator card's identity is irrelevant to the stock. -/
theorem performBinary_stock_rule (nid : Nat) (ch : BatchChoices) (opCard : BinaryOpCard)
    (z1 z2 : ComplexCard) (id1 id2 : Nat) (s : GameState)
    (happ : ((s.board.findIdx? fun c => c.id == id1).isSome ||
             (s.board.findIdx? fun c => c.id == id2).isSome) = true) :
    (performBinary nid ch opCard z1 z2 id1 id2 s).stock
      = match s.stock with
        | some st => if id1 == st.id then none else some st
        | none => none := by
  cases hb1 : (s.board.findIdx? fun c => c.id == id1) with
  | some i1 =>
    simp only [performBinary, hb1]
    simp [clearStockIf_stock, apply_ite GameState.stock]
  | none =>
    cases hb2 : (s.board.findIdx? fun c => c.id == id2) with
    | none => rw [hb1, hb2] at happ; simp at happ
    | some i2 =>
      simp only [performBinary, hb1, hb2]
      simp [clearStockIf_stock, apply_ite GameState.stock]

/-- Witness for the amended C3: first operand id 30 (hand), second id 10
(board), operator id 20 stocked — the stock survives because `30 ≠ 20`. -/
theorem performBinary_stock_rule_witness :
    (((st3.board.findIdx? fun c => c.id == 30).isSome ||
      (st3.board.findIdx? fun c => c.id == 10).isSome) = true) ∧
    (performBinary 99 ch0 ⟨20, BinOp.plus⟩ ⟨30, 2, 2⟩ ⟨10, 1, 1⟩ 30 10 st3).stock
      = match st3.stock with
        | some st => if 30 == st.id then none else some st
        | none => none :=
  ⟨by decide, performBinary_stock_rule 99 ch0 ⟨20, BinOp.plus⟩ ⟨30, 2, 2⟩ ⟨10, 1, 1⟩ 30 10 st3
    (by decide)⟩

theorem eraseIdx_of_findIdx?_eq_some {α : Type} {l : List α} {p : α → Bool} {i : Nat}
    (h : l.findIdx? p = some i) : l.eraseIdx i = l.eraseP p := by
  have h2 := eraseIdx_findIdx?_eq_eraseP l p
  rw [h] at h2
  simpa using h2

/-! ## Claim C5 -/

/-- C5: for every applied binary operation (at least one operand on the
board), with `left` the board-preferred operand and `right` the other:
`moves` increments; a real result with both operands on the board removes
both and adds 2 to `totalRemoved`; a real result with only `left` on the
board removes only `left` and adds 1; a non-real result replaces `left`'s
board slot (the index found for `left.id`) with the result, and additionally
erases `right`'s entry, adding 1 to `totalRemoved`, exactly when `right` is
on the board with an id distinct from `left`'s. -/
theorem performBinary_applied_policy (nid : Nat) (ch : BatchChoices) (opCard : BinaryOpCard)
    (z1 z2 : ComplexCard) (s : GameState) (left right result : ComplexCard)
    (hleft : left = leftOperand s z1 z2) (hright : right = rightOperand s z1 z2)
    (hres : result = binApply nid opCard.op left right)
    (happ : (onBoard s z1.id || onBoard s z2.id) = true) :
    (performBinary nid ch opCard z1 z2 z1.id z2.id s).moves = s.moves + 1 ∧
    (isReal result = true → (onBoard s z1.id && onBoard s z2.id) = true →
      (performBinary nid ch opCard z1 z2 z1.id z2.id s).board
        = s.board.filter (fun c => c.id != left.id && c.id != right.id) ∧
      (performBinary nid ch opCard z1 z2 z1.id z2.id s).totalRemoved = s.totalRemoved + 2) ∧
    (isReal result = true → (onBoard s z1.id && onBoard s z2.id) = false →
      (performBinary nid ch opCard z1 z2 z1.id z2.id s).board
        = s.board.filter (fun c => c.id != left.id) ∧
      (performBinary nid ch opCard z1 z2 z1.id z2.id s).totalRemoved = s.totalRemoved + 1) ∧
    (isReal result = false →
      ∃ li, s.board.findIdx? (fun c => c.id == left.id) = some li ∧
        ((onBoard s right.id && (right.id != left.id)) = true →
          (performBinary nid ch opCard z1 z2 z1.id z2.id s).board
            = (s.board.set li result).eraseP (fun c => c.id == right.id) ∧
          (performBinary nid ch opCard z1 z2 z1.id z2.id s).totalRemoved
            = s.totalRemoved + 1) ∧
        ((onBoard s right.id && (right.id != left.id)) = false →
          (performBinary nid ch opCard z1 z2 z1.id z2.id s).board = s.board.set li result ∧
          (performBinary nid ch opCard z1 z2 z1.id z2.id s).totalRemoved
            = s.totalRemoved)) := by
  subst hres
  subst hleft
  subst hright
  by_cases hob1 : (s.board.findIdx? fun c => c.id == z1.id).isSome = true
  · obtain ⟨i1, hb1⟩ := Option.isSome_iff_exists.mp hob1
    have hL : leftOperand s z1 z2 = z1 := by simp [leftOperand, onBoard, hb1]
    have hR : rightOperand s z1 z2 = z2 := by simp [rightOperand, onBoard, hb1]
    have hOB1 : onBoard s z1.id = true := by simp [onBoard, hb1]
    rw [hL, hR, hOB1]
    by_cases hob2 : (s.board.findIdx? fun c => c.id == z2.id).isSome = true
    · -- both operands on the board: left = z1, right = z2
      obtain ⟨i2, hb2⟩ := Option.isSome_iff_exists.mp hob2
      have hOB2 : onBoard s z2.id = true := by simp [onBoard, hb2]
      rw [hOB2]
      refine ⟨?_, ?_, ?_, ?_⟩
      · simp [performBinary, hb1, hb2, apply_ite GameState.moves]
      · intro hreal _
        refine ⟨?_, ?_⟩
        · simp [performBinary, hb1, hb2, hreal, apply_ite GameState.board]
        · simp [performBinary, hb1, hb2, hreal, apply_ite GameState.totalRemoved]
      · intro _ hboth
        simp at hboth
      · intro hreal
        refine ⟨i1, hb1, ?_, ?_⟩
        · intro hcond
          rw [Bool.true_and] at hcond
          cases hri : (s.board.set i1
              (binApply nid opCard.op z1 z2)).findIdx? (fun c => c.id == z2.id) with
          | none =>
            refine ⟨?_, ?_⟩
            · simp [performBinary, hb1, hb2, hreal, hcond, hri, apply_ite GameState.board]
              rw [List.eraseP_of_forall_not]
              intro a ha
              simp [List.findIdx?_eq_none_iff.mp hri a ha]
            · simp [performBinary, hb1, hb2, hreal, hcond, hri,
                apply_ite GameState.totalRemoved]
          | some ri =>
            refine ⟨?_, ?_⟩
            · simp [performBinary, hb1, hb2, hreal, hcond, hri, apply_ite GameState.board]
              rw [eraseIdx_of_findIdx?_eq_some hri]
            · simp [performBinary, hb1, hb2, hreal, hcond, hri,
                apply_ite GameState.totalRemoved]
        · intro hcond
          rw [Bool.true_and] at hcond
          refine ⟨?_, ?_⟩
          · simp [performBinary, hb1, hb2, hreal, hcond, apply_ite GameState.board]
          · simp [performBinary, hb1, hb2, hreal, hcond, apply_ite GameState.totalRemoved]
    · -- only the first operand is on the board: left = z1, right = z2
      have hb2 : (s.board.findIdx? fun c => c.id == z2.id) = none :=
        Option.not_isSome_iff_eq_none.mp hob2
      have hOB2 : onBoard s z2.id = false := by simp [onBoard, hb2]
      rw [hOB2]
      refine ⟨?_, ?_, ?_, ?_⟩
      · simp [performBinary, hb1, hb2, apply_ite GameState.moves]
      · intro _ hboth
        simp at hboth
      · intro hreal _
        refine ⟨?_, ?_⟩
        · simp [performBinary, hb1, hb2, hreal, apply_ite GameState.board]
        · simp [performBinary, hb1, hb2, hreal, apply_ite GameState.totalRemoved]
      · intro hreal
        refine ⟨i1, hb1, ?_, ?_⟩
        · intro hcond
          simp at hcond
        · intro _
          refine ⟨?_, ?_⟩
          · simp [performBinary, hb1, hb2, hreal, apply_ite GameState.board]
          · simp [performBinary, hb1, hb2, hreal, apply_ite GameState.totalRemoved]
  · -- first operand not on the board: the second must be; left = z2, right = z1
    have hb1 : (s.board.findIdx? fun c => c.id == z1.id) = none :=
      Option.not_isSome_iff_eq_none.mp hob1
    have hOB1 : onBoard s z1.id = false := by simp [onBoard, hb1]
    have hob2 : (s.board.findIdx? fun c => c.id == z2.id).isSome = true := by
      rw [hOB1] at happ
      simpa [onBoard] using happ
    obtain ⟨i2, hb2⟩ := Option.isSome_iff_exists.mp hob2
    have hOB2 : onBoard s z2.id = true := by simp [onBoard, hb2]
    have hL : leftOperand s z1 z2 = z2 := by simp [leftOperand, onBoard, hb1, hb2]
    have hR : rightOperand s z1 z2 = z1 := by simp [rightOperand, onBoard, hb1, hb2]
    rw [hL, hR, hOB1, hOB2]
    refine ⟨?_, ?_, ?_, ?_⟩
    · simp [performBinary, hb1, hb2, apply_ite GameState.moves]
    · intro _ hboth
      simp at hboth
    · intro hreal _
      refine ⟨?_, ?_⟩
      · simp [performBinary, hb1, hb2, hreal, apply_ite GameState.board]
      · simp [performBinary, hb1, hb2, hreal, apply_ite GameState.totalRemoved]
    · intro hreal
      refine ⟨i2, hb2, ?_, ?_⟩
      · intro hcond
        simp at hcond
      · intro _
        refine ⟨?_, ?_⟩
        · simp [performBinary, hb1, hb2, hreal, apply_ite GameState.board]
        · simp [performBinary, hb1, hb2, hreal, apply_ite GameState.totalRemoved]

/-- Witness for C5: operator id 20 applied to first operand id 30 (hand)
and second operand id 10 (board) in `st3`. -/
theorem performBinary_applied_policy_witness :
    (performBinary 99 ch0 ⟨20, BinOp.plus⟩ ⟨30, 2, 2⟩ ⟨10, 1, 1⟩ 30 10 st3).moves
      = st3.moves + 1 :=
  (performBinary_applied_policy 99 ch0 ⟨20, BinOp.plus⟩ ⟨30, 2, 2⟩ ⟨10, 1, 1⟩ st3
    ⟨10, 1, 1⟩ ⟨30, 2, 2⟩ ⟨99, 3, 3⟩ (by decide) (by decide) (by decide) (by decide)).1

/-! ## Board-shape case analysis (used for the board invariants) -/

/-- The board after `performUnary`, as a function of the found index. -/
theorem performUnary_board (nid : Nat) (ch : BatchChoices) (u : UnaryOpCard)
    (t : ComplexCard) (s : GameState) :
    (performUnary nid ch u t s).board
      = match s.board.findIdx? (fun c => c.id == t.id) with
        | none => s.board
        | some idx =>
          if isReal (unApply nid u.op t) then s.board.eraseIdx idx
          else s.board.set idx (unApply nid u.op t) := by
  cases hidx : s.board.findIdx? (fun c => c.id == t.id) with
  | none => simp [performUnary, hidx]
  | some idx =>
    by_cases hreal : isReal (unApply nid u.op t) = true
    · simp [performUnary, hidx, hreal, apply_ite GameState.board]
    · have hreal' : isReal (unApply nid u.op t) = false := by
        simpa using hreal
      simp [performUnary, hidx, hreal', apply_ite GameState.board]

/-- Every board `performBinary` can produce: unchanged, a two-id filter,
a one-id filter, an in-place replacement by a non-real result, or a
replacement followed by the removal of one index. -/
theorem performBinary_board_cases (nid : Nat) (ch : BatchChoices) (opCard : BinaryOpCard)
    (z1 z2 : ComplexCard) (id1 id2 : Nat) (s : GameState) :
    (performBinary nid ch opCard z1 z2 id1 id2 s).board = s.board ∨
    (∃ x y, (performBinary nid ch opCard z1 z2 id1 id2 s).board
      = s.board.filter fun c => c.id != x && c.id != y) ∨
    (∃ x, (performBinary nid ch opCard z1 z2 id1 id2 s).board
      = s.board.filter fun c => c.id != x) ∨
    (∃ li r, isReal r = false ∧
      (performBinary nid ch opCard z1 z2 id1 id2 s).board = s.board.set li r) ∨
    (∃ li r ri, isReal r = false ∧
      (performBinary nid ch opCard z1 z2 id1 id2 s).board
        = (s.board.set li r).eraseIdx ri) := by
  by_cases hob1 : (s.board.findIdx? fun c => c.id == id1).isSome = true
  · obtain ⟨i1, hb1⟩ := Option.isSome_iff_exists.mp hob1
    by_cases hreal : isReal (binApply nid opCard.op z1 z2) = true
    · by_cases hob2 : (s.board.findIdx? fun c => c.id == id2).isSome = true
      · obtain ⟨i2, hb2⟩ := Option.isSome_iff_exists.mp hob2
        refine Or.inr (Or.inl ⟨z1.id, z2.id, ?_⟩)
        simp [performBinary, hb1, hb2, hreal, apply_ite GameState.board]
      · have hb2 : (s.board.findIdx? fun c => c.id == id2) = none :=
          Option.not_isSome_iff_eq_none.mp hob2
        refine Or.inr (Or.inr (Or.inl ⟨z1.id, ?_⟩))
        simp [performBinary, hb1, hb2, hreal, apply_ite GameState.board]
    · have hreal' : isReal (binApply nid opCard.op z1 z2) = false := by simpa using hreal
      by_cases hob2 : (s.board.findIdx? fun c => c.id == id2).isSome = true
      · obtain ⟨i2, hb2⟩ := Option.isSome_iff_exists.mp hob2
        by_cases hc : (z2.id != z1.id) = true
        · cases hli : s.board.findIdx? (fun c => c.id == z1.id) with
          | none =>
            refine Or.inl ?_
            simp [performBinary, hb1, hb2, hreal', hc, hli, apply_ite GameState.board]
          | some li =>
            cases hri : ((s.board.set li
                (binApply nid opCard.op z1 z2)).findIdx? fun c => c.id == z2.id) with
            | none =>
              refine Or.inr (Or.inr (Or.inr (Or.inl
                ⟨li, binApply nid opCard.op z1 z2, hreal', ?_⟩)))
              simp [performBinary, hb1, hb2, hreal', hc, hli, hri, apply_ite GameState.board]
            | some ri =>
              refine Or.inr (Or.inr (Or.inr (Or.inr
                ⟨li, binApply nid opCard.op z1 z2, ri, hreal', ?_⟩)))
              simp [performBinary, hb1, hb2, hreal', hc, hli, hri, apply_ite GameState.board]
        · have hc' : (z2.id != z1.id) = false := by simpa using hc
          cases hli : s.board.findIdx? (fun c => c.id == z1.id) with
          | none =>
            refine Or.inl ?_
            simp [performBinary, hb1, hb2, hreal', hc', hli, apply_ite GameState.board]
          | some li =>
            refine Or.inr (Or.inr (Or.inr (Or.inl
              ⟨li, binApply nid opCard.op z1 z2, hreal', ?_⟩)))
            simp [performBinary, hb1, hb2, hreal', hc', hli, apply_ite GameState.board]
      · have hb2 : (s.board.findIdx? fun c => c.id == id2) = none :=
          Option.not_isSome_iff_eq_none.mp hob2
        cases hli : s.board.findIdx? (fun c => c.id == z1.id) with
        | none =>
          refine Or.inl ?_
          simp [performBinary, hb1, hb2, hreal', hli, apply_ite GameState.board]
        | some li =>
          refine Or.inr (Or.inr (Or.inr (Or.inl
            ⟨li, binApply nid opCard.op z1 z2, hreal', ?_⟩)))
          simp [performBinary, hb1, hb2, hreal', hli, apply_ite GameState.board]
  · have hb1 : (s.board.findIdx? fun c => c.id == id1) = none :=
      Option.not_isSome_iff_eq_none.mp hob1
    by_cases hob2 : (s.board.findIdx? fun c => c.id == id2).isSome = true
    · obtain ⟨i2, hb2⟩ := Option.isSome_iff_exists.mp hob2
      by_cases hreal : isReal (binApply nid opCard.op z2 z1) = true
      · refine Or.inr (Or.inr (Or.inl ⟨z2.id, ?_⟩))
        simp [performBinary, hb1, hb2, hreal, apply_ite GameState.board]
      · have hreal' : isReal (binApply nid opCard.op z2 z1) = false := by simpa using hreal
        cases hli : s.board.findIdx? (fun c => c.id == z2.id) with
        | none =>
          refine Or.inl ?_
          simp [performBinary, hb1, hb2, hreal', hli, apply_ite GameState.board]
        | some li =>
          refine Or.inr (Or.inr (Or.inr (Or.inl
            ⟨li, binApply nid opCard.op z2 z1, hreal', ?_⟩)))
          simp [performBinary, hb1, hb2, hreal', hli, apply_ite GameState.board]
    · have hb2 : (s.board.findIdx? fun c => c.id == id2) = none :=
        Option.not_isSome_iff_eq_none.mp hob2
      refine Or.inl ?_
      simp [performBinary, hb1, hb2]

theorem countP_or_le {α : Type} (l : List α) (p q : α → Bool) :
    l.countP (fun a => p a || q a) ≤ l.countP p + l.countP q := by
  induction l with
  | nil => simp
  | cons a t ih =>
    simp only [List.countP_cons]
    cases hp : p a <;> cases hq : q a <;> simp [hp, hq] <;> omega

theorem countP_id_le_one {l : List ComplexCard} (x : Nat)
    (hnd : (l.map ComplexCard.id).Nodup) :
    l.countP (fun c => c.id == x) ≤ 1 := by
  have h1 : (l.map ComplexCard.id).count x ≤ 1 :=
    List.nodup_iff_count_le_one.mp hnd x
  rw [List.count_eq_countP, List.countP_map] at h1
  exact h1

/-- With pairwise-distinct board ids, filtering two ids out removes at most
two cards. -/
theorem length_filter_two_ids_ge {l : List ComplexCard} {x y : Nat}
    (hnd : (l.map ComplexCard.id).Nodup) :
    l.length ≤ (l.filter fun c => c.id != x && c.id != y).length + 2 := by
  have h2 := List.length_eq_countP_add_countP (fun c => c.id != x && c.id != y) l
  have h3 : l.countP (fun a => decide ¬(a.id != x && a.id != y) = true)
      = l.countP (fun c => c.id == x || c.id == y) := by
    apply List.countP_congr
    intro a _
    by_cases hx : a.id = x <;> by_cases hy : a.id = y <;> simp [hx, hy]
  have h4 := countP_or_le l (fun c => c.id == x) (fun c => c.id == y)
  have h5 := countP_id_le_one x hnd
  have h6 := countP_id_le_one y hnd
  rw [← List.countP_eq_length_filter]
  omega

/-- With pairwise-distinct board ids, filtering one id out removes at most
one card. -/
theorem length_filter_one_id_ge {l : List ComplexCard} {x : Nat}
    (hnd : (l.map ComplexCard.id).Nodup) :
    l.length ≤ (l.filter fun c => c.id != x).length + 1 := by
  have h2 := List.length_eq_countP_add_countP (fun c => c.id != x) l
  have h3 : l.countP (fun a => decide ¬(a.id != x) = true)
      = l.countP (fun c => c.id == x) := by
    apply List.countP_congr
    intro a _
    by_cases hx : a.id = x <;> simp [hx]
  have h5 := countP_id_le_one x hnd
  rw [← List.countP_eq_length_filter]
  omega

/-! ## Claim C7 -/

/-- C7: each operation application leaves the board length unchanged or
smaller — `performUnary` drops it by at most 1, `performBinary` (with
pairwise-distinct board ids) by at most 2 — and it never grows. -/
theorem board_length_nonincreasing (nid : Nat) (ch : BatchChoices) (u : UnaryOpCard)
    (t : ComplexCard) (opCard : BinaryOpCard) (z1 z2 : ComplexCard) (id1 id2 : Nat)
    (s : GameState) :
    (performUnary nid ch u t s).board.length ≤ s.board.length ∧
    s.board.length ≤ (performUnary nid ch u t s).board.length + 1 ∧
    (performBinary nid ch opCard z1 z2 id1 id2 s).board.length ≤ s.board.length ∧
    ((s.board.map ComplexCard.id).Nodup →
      s.board.length ≤ (performBinary nid ch opCard z1 z2 id1 id2 s).board.length + 2) := by
  have e1 : ∀ (l : List ComplexCard) (i : Nat), (l.eraseIdx i).length ≤ l.length := by
    intro l i
    rw [List.length_eraseIdx]
    split <;> omega
  have e2 : ∀ (l : List ComplexCard) (i : Nat), l.length ≤ (l.eraseIdx i).length + 1 := by
    intro l i
    rw [List.length_eraseIdx]
    split <;> omega
  have hu := performUnary_board nid ch u t s
  have hbcases := performBinary_board_cases nid ch opCard z1 z2 id1 id2 s
  refine ⟨?_, ?_, ?_, ?_⟩
  · cases hidx : s.board.findIdx? (fun c => c.id == t.id) with
    | none => simp [hu, hidx]
    | some idx =>
      by_cases hreal : isReal (unApply nid u.op t) = true
      · simp only [hu, hidx, hreal, if_true]
        exact e1 _ _
      · have hreal' : isReal (unApply nid u.op t) = false := by simpa using hreal
        simp [hu, hidx, hreal']
  · cases hidx : s.board.findIdx? (fun c => c.id == t.id) with
    | none => simp [hu, hidx]
    | some idx =>
      by_cases hreal : isReal (unApply nid u.op t) = true
      · simp only [hu, hidx, hreal, if_true]
        exact e2 _ _
      · have hreal' : isReal (unApply nid u.op t) = false := by simpa using hreal
        simp [hu, hidx, hreal']
  · rcases hbcases with h | ⟨x, y, h⟩ | ⟨x, h⟩ | ⟨li, r, -, h⟩ | ⟨li, r, ri, -, h⟩
    · rw [h]
    · rw [h]
      exact List.length_filter_le _ _
    · rw [h]
      exact List.length_filter_le _ _
    · rw [h, List.length_set]
    · rw [h]
      refine le_trans (e1 _ _) ?_
      rw [List.length_set]
  · intro hnd
    rcases hbcases with h | ⟨x, y, h⟩ | ⟨x, h⟩ | ⟨li, r, -, h⟩ | ⟨li, r, ri, -, h⟩
    · rw [h]
      omega
    · rw [h]
      exact length_filter_two_ids_ge hnd
    · rw [h]
      have := length_filter_one_id_ge (x := x) hnd
      omega
    · rw [h, List.length_set]
      omega
    · have h2 := e2 (s.board.set li r) ri
      rw [List.length_set] at h2
      rw [h]
      omega

/-- Witness for C7 in the concrete state `st3`. -/
theorem board_length_nonincreasing_witness :
    (st3.board.map ComplexCard.id).Nodup ∧
    st3.board.length
      ≤ (performBinary 99 ch0 ⟨20, BinOp.plus⟩ ⟨30, 2, 2⟩ ⟨10, 1, 1⟩ 30 10 st3).board.length
        + 2 :=
  ⟨by decide,
   (board_length_nonincreasing 99 ch0 ⟨7, UnOp.conjugate⟩ ⟨10, 1, 1⟩ ⟨20, BinOp.plus⟩
     ⟨30, 2, 2⟩ ⟨10, 1, 1⟩ 30 10 st3).2.2.2 (by decide)⟩

/-! ## Claim C9: the shuffle is a permutation, so composition is stable -/

theorem cons_set_perm {α : Type} (t : List α) (m : Nat) (a : α) (hm : m < t.length) :
    List.Perm (t[m] :: t.set m a) (a :: t) := by
  induction t generalizing m with
  | nil => simp at hm
  | cons x ts ih =>
    cases m with
    | zero =>
      simp only [List.getElem_cons_zero, List.set_cons_zero]
      exact List.Perm.swap a x ts
    | succ m =>
      have hm' : m < ts.length := by simpa using hm
      simp only [List.getElem_cons_succ, List.set_cons_succ]
      calc
        List.Perm (ts[m] :: x :: ts.set m a) (x :: ts[m] :: ts.set m a) :=
          List.Perm.swap x (ts[m]) (ts.set m a)
        List.Perm (x :: ts[m] :: ts.set m a) (x :: (a :: ts)) :=
          List.Perm.cons x (ih m hm')
        List.Perm (x :: a :: ts) (a :: x :: ts) := List.Perm.swap a x ts

theorem set_set_swap_perm {α : Type} (l : List α) (i j : Nat) (hi : i < l.length)
    (hj : j < l.length) :
    List.Perm ((l.set i l[j]).set j l[i]) l := by
  induction l generalizing i j with
  | nil => simp at hi
  | cons x t ih =>
    cases i with
    | zero =>
      cases j with
      | zero => simp
      | succ m =>
        have hm : m < t.length := by simpa using hj
        simp only [List.getElem_cons_zero, List.getElem_cons_succ, List.set_cons_zero,
          List.set_cons_succ]
        exact cons_set_perm t m x hm
    | succ n =>
      cases j with
      | zero =>
        have hn : n < t.length := by simpa using hi
        simp only [List.getElem_cons_zero, List.getElem_cons_succ, List.set_cons_zero,
          List.set_cons_succ]
        exact cons_set_perm t n x hn
      | succ m =>
        have hn : n < t.length := by simpa using hi
        have hm : m < t.length := by simpa using hj
        simp only [List.getElem_cons_succ, List.set_cons_succ]
        exact List.Perm.cons x (ih n m hn hm)

theorem swapAt_perm {α : Type} (l : List α) (i j : Nat) : List.Perm (swapAt l i j) l := by
  cases h1 : l[i]? with
  | none => simp [swapAt, h1]
  | some x =>
    cases h2 : l[j]? with
    | none => simp [swapAt, h1, h2]
    | some y =>
      obtain ⟨hi, hxi⟩ := List.getElem?_eq_some.mp h1
      obtain ⟨hj, hyj⟩ := List.getElem?_eq_some.mp h2
      simp only [swapAt, h1, h2]
      rw [← hxi, ← hyj]
      exact set_set_swap_perm l i j hi hj

theorem shuffleLoop_perm {α : Type} (sh : Nat → Nat) (n : Nat) (l : List α) :
    List.Perm (shuffleLoop sh n l) l := by
  induction n generalizing l with
  | zero => exact List.Perm.refl l
  | succ i ih =>
    rw [shuffleLoop]
    exact (ih _).trans (swapAt_perm l (i + 1) (sh (i + 1) % (i + 2)))

/-- C9: `genHandBatch` always returns exactly 8 cards — 2 binary operators,
4 complex cards and 2 unary operators — whatever the sampled operators,
coefficients and shuffle choices are. -/
theorem genHandBatch_composition (ch : BatchChoices) :
    (genHandBatch ch).length = 8 ∧
    (genHandBatch ch).countP (fun c => c.kind == Kind.binaryK) = 2 ∧
    (genHandBatch ch).countP (fun c => c.kind == Kind.complexK) = 4 ∧
    (genHandBatch ch).countP (fun c => c.kind == Kind.unaryK) = 2 := by
  refine ⟨genHandBatch_length ch, ?_, ?_, ?_⟩ <;>
  · rw [genHandBatch]
    rw [List.Perm.countP_eq _ (shuffleLoop_perm ch.sh _ _)]
    simp [List.countP_cons, Card.kind]

/-! ## SelectionController (`App.tsx` lines 156–227) and lifecycle -/

/-- `findCardById(id)`: search the hand, then the board, then the stock. -/
def findCardById (s : GameState) (cid : Nat) : Option Card :=
  match s.hand.find? (fun c => c.id == cid) with
  | some c => some c
  | none =>
    match s.board.find? (fun c => c.id == cid) with
    | some c => some (Card.complex c)
    | none =>
      match s.stock with
      | some st => if st.id == cid then some st else none
      | none => none

/-- The binary-operator arm of `onSelectCard` (lines 202–226): first pick
must be off-board; a second distinct pick triggers `performBinary`. -/
def binaryTargetStep (nid : Nat) (ch : BatchChoices) (op : BinaryOpCard)
    (cc : ComplexCard) (cid : Nat) (isOnBoard : Option ComplexCard)
    (s : GameState) : GameState :=
  if s.selectedTargets.length == 0 && isOnBoard.isNone then
    { s with selectedTargets := [cid] }
  else if s.selectedTargets.length == 1 then
    match s.selectedTargets.head? with
    | none => s
    | some firstId =>
      if firstId == cid then s
      else
        match findCardById s firstId with
        | none => s
        | some firstCard =>
          match firstCard with
          | Card.complex f1 => performBinary nid ch op f1 cc firstId cid s
          | _ => resetSelections s
  else resetSelections s

/-- `onSelectCard(id)`.  A complex card stored in `selectedOp` (impossible in
reachable states, but allowed by the state type) falls into the source's
`else` branch, where the cast `selectedOp as BinaryOpCard` yields an
undefined `op` that falls through `"+"` and `"-"` to the multiply case. -/
def onSelectCard (nid : Nat) (ch : BatchChoices) (s : GameState) (cid : Nat) : GameState :=
  match findCardById s cid with
  | none => s
  | some card =>
    let isOnBoard := s.board.find? (fun c => c.id == cid)
    match card with
    | Card.binary _ => { s with selectedOp := some card, selectedTargets := [] }
    | Card.unary _ => { s with selectedOp := some card, selectedTargets := [] }
    | Card.complex cc =>
      match s.selectedOp with
      | none =>
        match isOnBoard with
        | some _ => s
        | none =>
          { s with selectedTargets :=
              if s.selectedTargets.contains cid then
                s.selectedTargets.filter fun x => x != cid
              else
                (s.selectedTargets ++ [cid]).drop ((s.selectedTargets ++ [cid]).length - 2) }
      | some op =>
        match op with
        | Card.unary u =>
          match isOnBoard with
          | none => s
          | some bc => performUnary nid ch u bc s
        | Card.binary b => binaryTargetStep nid ch b cc cid isOnBoard s
        | Card.complex oc => binaryTargetStep nid ch ⟨oc.id, BinOp.times⟩ cc cid isOnBoard s

/-- The random choices of one board-and-hand setup. -/
structure InitChoices where
  fa : Nat → Nat
  fb : Nat → Nat
  fid : Nat → Nat
  batch : BatchChoices

/-- The state after mount: initial board of 6, initial hand of 8, everything
else zeroed (the `useState` initialisers plus the setup effect). -/
def initialState (ic : InitChoices) : GameState :=
  { board := genInitialBoard 6 ic.fa ic.fb ic.fid
    hand := genHandBatch ic.batch
    stock := none
    selectedOp := none
    selectedTargets := []
    moves := 0
    totalRemoved := 0
    gameOver := false }

/-- `resetGame()`: regenerate everything from scratch, ignoring the current
state. -/
def resetGame (ic : InitChoices) (_s : GameState) : GameState :=
  initialState ic

/-- The win-detection effect: latch `gameOver` once the board is empty. -/
def checkWin (s : GameState) : GameState :=
  if s.board.isEmpty && !s.gameOver then { s with gameOver := true } else s

/-- One externally triggerable transition of the engine. -/
inductive Step : GameState → GameState → Prop where
  | select (nid : Nat) (ch : BatchChoices) (cid : Nat) (s : GameState) :
      Step s (onSelectCard nid ch s cid)
  | toggleStock (cid : Nat) (s : GameState) : Step s (toggleStockFromHand s cid)
  | draw (ch : BatchChoices) (s : GameState) : Step s (drawNextBatch ch s)
  | place (s : GameState) : Step s (placeStockBack s)
  | reset (ic : InitChoices) (s : GameState) : Step s (resetGame ic s)
  | win (s : GameState) : Step s (checkWin s)

/-- States reachable from some initial setup by entry-point calls. -/
inductive Reachable : GameState → Prop where
  | init (ic : InitChoices) : Reachable (initialState ic)
  | step {s s' : GameState} : Reachable s → Step s s' → Reachable s'

/-! ## Claim C10 -/

/-- C10: with a binary operator active and exactly one selected target,
clicking that same target id again is ignored: the whole state — including
the active operator and the sole target — is unchanged.  (The hypothesis on
`findCardById` records that the stored target id denotes a complex card or
nothing, which is the only situation reachable selections produce.) -/
theorem selectCard_same_sole_target_ignored (nid : Nat) (ch : BatchChoices)
    (s : GameState) (b : BinaryOpCard) (t : Nat)
    (hop : s.selectedOp = some (Card.binary b))
    (htargets : s.selectedTargets = [t])
    (hcard : ∀ c, findCardById s t = some c → ∃ cc, c = Card.complex cc) :
    onSelectCard nid ch s t = s := by
  cases hfind : findCardById s t with
  | none => simp [onSelectCard, hfind]
  | some card =>
    obtain ⟨cc, rfl⟩ := hcard card hfind
    simp [onSelectCard, hfind, hop, binaryTargetStep, htargets]

/-- A state with binary operator id 9 active and sole target id 5. -/
def st4 : GameState :=
  { board := []
    hand := [Card.complex ⟨5, 1, 1⟩, Card.binary ⟨9, BinOp.plus⟩]
    stock := none
    selectedOp := some (Card.binary ⟨9, BinOp.plus⟩)
    selectedTargets := [5]
    moves := 0
    totalRemoved := 0
    gameOver := false }

/-- Witness for C10: clicking target id 5 again in `st4` changes nothing. -/
theorem selectCard_same_sole_target_ignored_witness :
    onSelectCard 99 ch0 st4 5 = st4 :=
  selectCard_same_sole_target_ignored 99 ch0 st4 ⟨9, BinOp.plus⟩ 5 rfl rfl
    (by
      intro c hc
      have h0 : findCardById st4 5 = some (Card.complex ⟨5, 1, 1⟩) := by decide
      rw [h0] at hc
      exact ⟨⟨5, 1, 1⟩, (Option.some.inj hc).symm⟩)

/-! ## Claim C8: the board never holds a real value -/

theorem sample_mem {α : Type} (arr : List α) (d : α) (i : Nat) (h : arr ≠ []) :
    sample arr d i ∈ arr := by
  rw [sample]
  have hlen : 0 < arr.length := List.length_pos.mpr h
  have hlt : i % arr.length < arr.length := Nat.mod_lt _ hlen
  rw [List.getD_eq_getElem?_getD, List.getElem?_eq_getElem hlt]
  exact List.getElem_mem hlt

theorem genNonRealComplex_nonreal (ia ib cid : Nat) :
    (genNonRealComplex ia ib cid).b ≠ 0 := by
  have hmem : sample COMPLEX_RANGE_NON0 0 ib ∈ COMPLEX_RANGE_NON0 :=
    sample_mem _ _ _ (by decide)
  have hall : ∀ x ∈ COMPLEX_RANGE_NON0, x ≠ (0 : Int) := by decide
  exact hall _ hmem

theorem performUnary_nonreal (nid : Nat) (ch : BatchChoices) (u : UnaryOpCard)
    (t : ComplexCard) (s : GameState) (hIH : ∀ c ∈ s.board, c.b ≠ 0) :
    ∀ c ∈ (performUnary nid ch u t s).board, c.b ≠ 0 := by
  intro c hc
  rw [performUnary_board] at hc
  cases hidx : s.board.findIdx? (fun c => c.id == t.id) with
  | none =>
    simp only [hidx] at hc
    exact hIH c hc
  | some idx =>
    simp only [hidx] at hc
    by_cases hreal : isReal (unApply nid u.op t) = true
    · rw [if_pos hreal] at hc
      exact hIH c (List.eraseIdx_subset _ _ hc)
    · rw [if_neg hreal] at hc
      rcases List.mem_or_eq_of_mem_set hc with h | h
      · exact hIH c h
      · subst h
        simpa [isReal] using hreal

theorem performBinary_nonreal (nid : Nat) (ch : BatchChoices) (opCard : BinaryOpCard)
    (z1 z2 : ComplexCard) (id1 id2 : Nat) (s : GameState)
    (hIH : ∀ c ∈ s.board, c.b ≠ 0) :
    ∀ c ∈ (performBinary nid ch opCard z1 z2 id1 id2 s).board, c.b ≠ 0 := by
  rcases performBinary_board_cases nid ch opCard z1 z2 id1 id2 s with
    h | ⟨x, y, h⟩ | ⟨x, h⟩ | ⟨li, r, hr, h⟩ | ⟨li, r, ri, hr, h⟩ <;> intro c hc <;> rw [h] at hc
  · exact hIH c hc
  · exact hIH c (List.mem_filter.mp hc).1
  · exact hIH c (List.mem_filter.mp hc).1
  · rcases List.mem_or_eq_of_mem_set hc with h2 | h2
    · exact hIH c h2
    · subst h2
      simpa [isReal] using hr
  · have hc2 := List.eraseIdx_subset _ _ hc
    rcases List.mem_or_eq_of_mem_set hc2 with h2 | h2
    · exact hIH c h2
    · subst h2
      simpa [isReal] using hr

theorem binaryTargetStep_nonreal (nid : Nat) (ch : BatchChoices) (op : BinaryOpCard)
    (cc : ComplexCard) (cid : Nat) (iob : Option ComplexCard) (s : GameState)
    (hIH : ∀ c ∈ s.board, c.b ≠ 0) :
    ∀ c ∈ (binaryTargetStep nid ch op cc cid iob s).board, c.b ≠ 0 := by
  rw [binaryTargetStep]
  by_cases h1 : (s.selectedTargets.length == 0 && iob.isNone) = true
  · rw [if_pos h1]
    exact hIH
  · rw [if_neg h1]
    by_cases h2 : (s.selectedTargets.length == 1) = true
    · rw [if_pos h2]
      cases hhd : s.selectedTargets.head? with
      | none => simpa only [hhd] using hIH
      | some firstId =>
        simp only [hhd]
        by_cases h3 : (firstId == cid) = true
        · rw [if_pos h3]
          exact hIH
        · rw [if_neg h3]
          cases hfc : findCardById s firstId with
          | none => simpa only [hfc] using hIH
          | some fc =>
            simp only [hfc]
            cases fc with
            | complex f1 => exact performBinary_nonreal nid ch op f1 cc firstId cid s hIH
            | binary bc => exact hIH
            | unary uc => exact hIH
    · rw [if_neg h2]
      exact hIH

theorem onSelectCard_nonreal (nid : Nat) (ch : BatchChoices) (s : GameState) (cid : Nat)
    (hIH : ∀ c ∈ s.board, c.b ≠ 0) :
    ∀ c ∈ (onSelectCard nid ch s cid).board, c.b ≠ 0 := by
  rw [onSelectCard]
  cases hfind : findCardById s cid with
  | none => simpa only [hfind] using hIH
  | some card =>
    simp only [hfind]
    cases card with
    | binary bc => exact hIH
    | unary uc => exact hIH
    | complex cc =>
      cases hop : s.selectedOp with
      | none =>
        simp only [hop]
        cases hiob : s.board.find? (fun c => c.id == cid) with
        | some bc => simpa only [hiob] using hIH
        | none => simpa only [hiob] using hIH
      | some op =>
        simp only [hop]
        cases op with
        | unary u =>
          cases hiob : s.board.find? (fun c => c.id == cid) with
          | none => simpa only [hiob] using hIH
          | some bc =>
            simp only [hiob]
            exact performUnary_nonreal nid ch u bc s hIH
        | binary b => exact binaryTargetStep_nonreal nid ch b cc cid _ s hIH
        | complex oc => exact binaryTargetStep_nonreal nid ch ⟨oc.id, BinOp.times⟩ cc cid _ s hIH

theorem toggleStockFromHand_board (s : GameState) (cid : Nat) :
    (toggleStockFromHand s cid).board = s.board := by
  cases hfind : s.hand.find? (fun c => c.id == cid) with
  | none => simp [toggleStockFromHand, hfind]
  | some c =>
    cases hstock : s.stock with
    | none => simp [toggleStockFromHand, hfind, hstock, resetSelections]
    | some st =>
      by_cases h : (st.id == c.id) = true <;>
        simp [toggleStockFromHand, hfind, hstock, h, resetSelections]

theorem placeStockBack_board (s : GameState) : (placeStockBack s).board = s.board := by
  cases hstock : s.stock with
  | none => simp [placeStockBack, hstock]
  | some st => simp [placeStockBack, hstock]

theorem checkWin_board (s : GameState) : (checkWin s).board = s.board := by
  by_cases h : (s.board.isEmpty && !s.gameOver) = true <;> simp [checkWin, h]

/-- C8: `genNonRealComplex` only produces cards with a non-zero imaginary
part, and in every reachable state every card on the board has `b ≠ 0`:
real results are removed in the transition that produces them, so the board
never holds a real value. -/
theorem board_cards_never_real :
    (∀ ia ib cid, (genNonRealComplex ia ib cid).b ≠ 0) ∧
    ∀ s, Reachable s → ∀ c ∈ s.board, c.b ≠ 0 := by
  refine ⟨genNonRealComplex_nonreal, ?_⟩
  intro s hreach
  induction hreach with
  | init ic =>
    intro c hc
    simp only [initialState, genInitialBoard, List.mem_map] at hc
    obtain ⟨k, -, rfl⟩ := hc
    exact genNonRealComplex_nonreal _ _ _
  | step hr hstep ih =>
    cases hstep with
    | select nid ch cid s => exact onSelectCard_nonreal nid ch _ cid ih
    | toggleStock cid s =>
      rw [toggleStockFromHand_board]
      exact ih
    | draw ch s =>
      rw [drawNextBatch_board]
      exact ih
    | place s =>
      rw [placeStockBack_board]
      exact ih
    | reset ic s =>
      intro c hc
      simp only [resetGame, initialState, genInitialBoard, List.mem_map] at hc
      obtain ⟨k, -, rfl⟩ := hc
      exact genNonRealComplex_nonreal _ _ _
    | win s =>
      rw [checkWin_board]
      exact ih

/-- A fixed bundle of setup choices. -/
def ic0 : InitChoices := ⟨fun _ => 0, fun _ => 0, fun k => k, ch0⟩

/-- Witness for C8 at the concrete initial state generated by `ic0`. -/
theorem board_cards_never_real_witness :
    (genNonRealComplex 0 0 0).b ≠ 0 ∧ ∀ c ∈ (initialState ic0).board, c.b ≠ 0 :=
  ⟨board_cards_never_real.1 0 0 0, board_cards_never_real.2 _ (Reachable.init ic0)⟩

/-! ## Claim C4 -/

/-- C4: the arithmetic operations compute `add(z1,z2) = (a1+a2, b1+b2)`,
`sub(z1,z2) = (a1-a2, b1-b2)`, `mul(z1,z2) = (a1*a2 - b1*b2, a1*b2 + b1*a2)`,
`conjugate(z) = (a, -b)`, `mulByI(z, sign) = (-sign*b, sign*a)` for
`sign ∈ {+1, -1}`, and `isReal(z)` holds exactly when `b = 0`. -/
theorem arithmetic_ops_correct (nid : Nat) (z1 z2 z : ComplexCard) (sign : Int)
    (hsign : sign = 1 ∨ sign = -1) :
    (add nid z1 z2).a = z1.a + z2.a ∧ (add nid z1 z2).b = z1.b + z2.b ∧
    (sub nid z1 z2).a = z1.a - z2.a ∧ (sub nid z1 z2).b = z1.b - z2.b ∧
    (mul nid z1 z2).a = z1.a * z2.a - z1.b * z2.b ∧
    (mul nid z1 z2).b = z1.a * z2.b + z1.b * z2.a ∧
    (conj nid z).a = z.a ∧ (conj nid z).b = -z.b ∧
    (imul nid z sign).a = -sign * z.b ∧ (imul nid z sign).b = sign * z.a ∧
    (isReal z = true ↔ z.b = 0) := by
  refine ⟨rfl, rfl, rfl, rfl, rfl, rfl, rfl, rfl, rfl, rfl, ?_⟩
  cases hsign <;> simp [isReal]

/-- Witness for C4 at a concrete input. -/
theorem arithmetic_ops_correct_witness :
    ((1 : Int) = 1 ∨ (1 : Int) = -1) ∧
    ((add 0 ⟨1, 1, 1⟩ ⟨2, 1, -1⟩).a = 1 + 1 ∧ (add 0 ⟨1, 1, 1⟩ ⟨2, 1, -1⟩).b = 1 + -1 ∧
    (sub 0 ⟨1, 1, 1⟩ ⟨2, 1, -1⟩).a = 1 - 1 ∧ (sub 0 ⟨1, 1, 1⟩ ⟨2, 1, -1⟩).b = 1 - -1 ∧
    (mul 0 ⟨1, 1, 1⟩ ⟨2, 1, -1⟩).a = 1 * 1 - 1 * -1 ∧
    (mul 0 ⟨1, 1, 1⟩ ⟨2, 1, -1⟩).b = 1 * -1 + 1 * 1 ∧
    (conj 0 ⟨3, 2, 5⟩).a = 2 ∧ (conj 0 ⟨3, 2, 5⟩).b = -5 ∧
    (imul 0 ⟨3, 2, 5⟩ 1).a = -1 * 5 ∧ (imul 0 ⟨3, 2, 5⟩ 1).b = 1 * 2 ∧
    (isReal ⟨3, 2, 5⟩ = true ↔ (5 : Int) = 0)) :=
  ⟨Or.inl rfl, arithmetic_ops_correct 0 ⟨1, 1, 1⟩ ⟨2, 1, -1⟩ ⟨3, 2, 5⟩ 1 (Or.inl rfl)⟩

end BeReal
